import Mathlib

/-!
# Verification of the Uber trip exporter (`uber-script.py`)

A shallow embedding of the pure core of `src/uber-script.py`: month/date
resolution (`get_month_date_range`), the trip-listing processing loop of
`get_uber_trips`, price extraction from free-text descriptions, pickup
classification (`classify_trip_reason`), the two-format trip-time parsing
(`parse_trip_date` and the date-cell logic of `process_excel_file`), and the
receipt-merge ordering (`merge_receipts`).

Modelling conventions:
* Python floats that in the script only ever hold decimal prices are modelled
  as exact rationals (`ℚ`).
* Network effects are modelled as explicit inputs: the listing response is a
  `ListingResult` value and the per-trip detail endpoint is a function from
  trip id to `DetailResult`.
* `datetime.now()` is lifted to explicit `currentYear`/`currentMonth`
  parameters.
* Python `str.lower` is modelled on ASCII letters (`Char.toLower`), which is
  what every keyword and literal in the script exercises.
-/

/-! ## String helpers: lowercasing and substring containment -/

/-- ASCII lowercasing of a character list, modelling Python `str.lower()` on
the ASCII fragment the script uses. -/
def lowerL (cs : List Char) : List Char := cs.map Char.toLower

/-- `isPrefixL n h` holds when the list `n` is an initial segment of `h`. -/
def isPrefixL : List Char → List Char → Bool
  | [], _ => true
  | _ :: _, [] => false
  | a :: as, b :: bs => a = b && isPrefixL as bs

/-- `containsL n h` models the Python substring test `n in h`. -/
def containsL (n : List Char) : List Char → Bool
  | [] => n.isEmpty
  | c :: cs => isPrefixL n (c :: cs) || containsL n cs

/-- Case-insensitive containment of the (already lowercase) literal `pat` in
`s`, modelling `pat in s.lower()`. -/
def containsLower (s : String) (pat : String) : Bool :=
  containsL pat.toList (lowerL s.toList)

theorem isPrefixL_iff (n h : List Char) :
    isPrefixL n h = true ↔ ∃ t, n ++ t = h := by
  induction n generalizing h with
  | nil => simp [isPrefixL]
  | cons a as ih =>
    cases h with
    | nil => simp [isPrefixL]
    | cons b bs =>
      simp only [isPrefixL, Bool.and_eq_true, decide_eq_true_eq, ih,
        List.cons_append, List.cons.injEq]
      constructor
      · rintro ⟨rfl, t, rfl⟩; exact ⟨t, rfl, rfl⟩
      · rintro ⟨t, rfl, rfl⟩; exact ⟨rfl, t, rfl⟩

theorem containsL_iff (n h : List Char) :
    containsL n h = true ↔ ∃ p t, p ++ n ++ t = h := by
  induction h with
  | nil =>
    simp only [containsL, List.isEmpty_iff]
    constructor
    · rintro rfl; exact ⟨[], [], rfl⟩
    · rintro ⟨p, t, hpt⟩
      rcases List.append_eq_nil.mp hpt with ⟨h1, h2⟩
      exact (List.append_eq_nil.mp h1).2
  | cons c cs ih =>
    simp only [containsL, Bool.or_eq_true, isPrefixL_iff, ih]
    constructor
    · rintro (⟨t, ht⟩ | ⟨p, t, hpt⟩)
      · exact ⟨[], t, by simpa using ht⟩
      · exact ⟨c :: p, t, by simp [hpt]⟩
    · rintro ⟨p, t, hpt⟩
      cases p with
      | nil => exact Or.inl ⟨t, by simpa using hpt⟩
      | cons x xs =>
        right
        refine ⟨xs, t, ?_⟩
        have := hpt
        simp only [List.cons_append, List.cons.injEq] at this
        exact this.2

/-! ## Price extraction

`get_uber_trips` parses a price with `re.search(r"([0-9]+(?:\.[0-9]+)?)", desc)`
and `float(match.group(1)) if match else 0.0`.  The leftmost match of that
pattern starts at the first digit of `desc`, takes the maximal run of digits,
and, when a dot followed by a digit comes next, also the dot and the maximal
run of digits after it. -/

/-- Maximal leading run of digits of a character list, with the rest. -/
def spanDigits : List Char → List Char × List Char
  | [] => ([], [])
  | c :: cs =>
    if c.isDigit then
      let p := spanDigits cs
      (c :: p.1, p.2)
    else ([], c :: cs)

/-- The optional fractional part `(?:\.[0-9]+)?` right after the integer
digits: nonempty exactly when a dot followed by a digit comes next, in which
case it is the maximal digit run after the dot. -/
def fracDigits : List Char → List Char
  | [] => []
  | x :: r2 =>
    if x = '.' then
      match r2 with
      | [] => []
      | y :: _ => if y.isDigit then (spanDigits r2).1 else []
    else []

/-- The first match of `[0-9]+(?:\.[0-9]+)?` in a character list, returned as
(integer digits, fractional digits); `none` when the list has no digit. -/
def scanNumber : List Char → Option (List Char × List Char)
  | [] => none
  | c :: cs =>
    if c.isDigit then
      let p := spanDigits (c :: cs)
      some (p.1, fracDigits p.2)
    else scanNumber cs

/-- Numeric value of a digit string, as Python `int`/`float` read it. -/
def digitsVal (ds : List Char) : Nat :=
  ds.foldl (fun n c => 10 * n + (c.toNat - 48)) 0

/-- Price extracted from a trip description (`0.0` when no digits occur),
modelling lines 470–471 of `uber-script.py` with exact rational arithmetic. -/
def parsePriceQ (desc : String) : ℚ :=
  match scanNumber desc.toList with
  | none => 0
  | some (ds, fs) => (digitsVal ds : ℚ) + (digitsVal fs : ℚ) / (10 : ℚ) ^ fs.length

theorem scanNumber_append_nodigit (pre l : List Char)
    (h : ∀ c ∈ pre, c.isDigit = false) :
    scanNumber (pre ++ l) = scanNumber l := by
  induction pre with
  | nil => simp
  | cons c cs ih =>
    have hc : c.isDigit = false := h c (by simp)
    simp only [List.cons_append, scanNumber, hc, Bool.false_eq_true, if_false]
    exact ih fun x hx => h x (by simp [hx])

theorem scanNumber_none (l : List Char) (h : ∀ c ∈ l, c.isDigit = false) :
    scanNumber l = none := by
  have := scanNumber_append_nodigit l [] h
  simpa using this

theorem spanDigits_append (ds r : List Char) (hds : ∀ c ∈ ds, c.isDigit = true)
    (hr : ∀ d rest, r = d :: rest → d.isDigit = false) :
    spanDigits (ds ++ r) = (ds, r) := by
  induction ds with
  | nil =>
    cases r with
    | nil => simp [spanDigits]
    | cons d rest => simp [spanDigits, hr d rest rfl]
  | cons c cs ih =>
    have hc : c.isDigit = true := hds c (by simp)
    have ih2 := ih fun x hx => hds x (by simp [hx])
    simp only [List.cons_append, spanDigits, hc, if_true]
    rw [show cs.append r = cs ++ r from rfl, ih2]

theorem scanNumber_first (d : Char) (ds rest : List Char)
    (hd : d.isDigit = true) (hds : ∀ c ∈ ds, c.isDigit = true)
    (hrest : ∀ e r, rest = e :: r → e.isDigit = false) :
    scanNumber ((d :: ds) ++ rest) = some (d :: ds, fracDigits rest) := by
  have hspan : spanDigits (d :: (ds ++ rest)) = (d :: ds, rest) := by
    have := spanDigits_append (d :: ds) rest
      (by intro c hc; rcases List.mem_cons.mp hc with rfl | hc
          · exact hd
          · exact hds c hc) hrest
    simpa using this
  simp only [List.cons_append, scanNumber, hd, if_true, List.append_eq]
  rw [hspan]

theorem fracDigits_nodot (rest : List Char)
    (h : ∀ e r, rest = e :: r → e ≠ '.') : fracDigits rest = [] := by
  cases rest with
  | nil => rfl
  | cons e r => simp [fracDigits, h e r rfl]

theorem fracDigits_dot_nodigit (r2 : List Char)
    (h : ∀ e r, r2 = e :: r → e.isDigit = false) : fracDigits ('.' :: r2) = [] := by
  cases r2 with
  | nil => rfl
  | cons e r => simp [fracDigits, h e r rfl]

theorem fracDigits_dot_digits (f : Char) (fs rest : List Char)
    (hf : f.isDigit = true) (hfs : ∀ c ∈ fs, c.isDigit = true)
    (hrest : ∀ e r, rest = e :: r → e.isDigit = false) :
    fracDigits ('.' :: (f :: fs) ++ rest) = f :: fs := by
  have hspan : spanDigits (f :: (fs ++ rest)) = (f :: fs, rest) := by
    have := spanDigits_append (f :: fs) rest
      (by intro c hc; rcases List.mem_cons.mp hc with rfl | hc
          · exact hf
          · exact hfs c hc) hrest
    simpa using this
  simp [fracDigits, hf, hspan]

/-! ## Data model of `get_uber_trips` (lines 322–546)

A raw activity record carries the four fields the listing query requests;
the per-trip detail endpoint's answer is a `DetailResult`; the listing
response itself is a `ListingResult`. All failure paths of the detail fetch
(timeout, network error, non-200 status, missing/empty `data`, missing
`trip` key) leave both addresses empty in the script, so they are collapsed
into the single constructor `DetailResult.fail`. -/

/-- One entry of the `waypoints` JSON array: a string or any other value
(the script tests `isinstance(waypoints[i], str)`). -/
inductive Waypoint where
  | str (s : String)
  | nonstr
deriving DecidableEq

/-- Outcome of the trip-detail fetch for one trip. -/
inductive DetailResult where
  | fail
  | ok (waypoints : List Waypoint)
deriving DecidableEq

/-- A raw record of the activities listing response. -/
structure ActivityRecord where
  uuid : String
  cardURL : String
  description : String
  subtitle : String
deriving DecidableEq

/-- A processed trip, as appended to `trips` (lines 530–538). -/
structure Trip where
  uuid : String
  url : String
  status : String
  price : ℚ
  time : String
  pickup_location : String
  dropoff_location : String
deriving DecidableEq

/-- Outcome of the listing request (lines 435–453): timeout, network error,
or an HTTP response carrying a status code and a body. -/
inductive ListingResult where
  | timeout
  | netError
  | ok (status : Nat) (body : Option (List ActivityRecord))

/-- `status = "Canceled" if "canceled" in desc.lower() else "Completed"`
(line 475). -/
def recordStatus (desc : String) : String :=
  if containsLower desc "canceled" then "Canceled" else "Completed"

/-- The exclusion test of line 476:
`status == "Canceled" or "unfulfilled" in desc.lower()`. -/
def isSkipped (desc : String) : Bool :=
  recordStatus desc = "Canceled" || containsLower desc "unfulfilled"

/-- Pickup and dropoff addresses from a detail-fetch outcome (lines 499–518):
with at least two waypoints the first and last entries are used, a non-string
entry becoming a literal placeholder; otherwise both stay empty. -/
def waypointAddresses : DetailResult → String × String
  | .fail => ("", "")
  | .ok ws =>
    match ws with
    | w0 :: w1 :: rest =>
      ((match w0 with | .str s => s | .nonstr => "Unknown pickup"),
       (match (w1 :: rest).getLast (List.cons_ne_nil w1 rest) with
        | .str s => s | .nonstr => "Unknown dropoff"))
    | _ => ("", "")

/-- The trip dict appended at lines 530–538 for a retained record. -/
def mkTrip (detail : String → DetailResult) (r : ActivityRecord) : Trip :=
  { uuid := r.uuid
    url := r.cardURL
    status := recordStatus r.description
    price := parsePriceQ r.description
    time := r.subtitle
    pickup_location := (waypointAddresses (detail r.uuid)).1
    dropoff_location := (waypointAddresses (detail r.uuid)).2 }

/-- The per-record loop of `get_uber_trips` (lines 461–541): every record's
price is added to the running total, then canceled/unfulfilled records are
skipped before the trip is built and appended. -/
def processActivities (detail : String → DetailResult) :
    List ActivityRecord → List Trip × ℚ
  | [] => ([], 0)
  | r :: rs =>
    let price := parsePriceQ r.description
    let rec_rest := processActivities detail rs
    if isSkipped r.description then
      (rec_rest.1, price + rec_rest.2)
    else
      (mkTrip detail r :: rec_rest.1, price + rec_rest.2)

/-- `get_uber_trips` (lines 322–546) restricted to its pure content: the
listing response and the detail endpoint are inputs; receipt downloading and
rate-limit sleeps have no bearing on the returned value. -/
def get_uber_trips (detail : String → DetailResult) (resp : ListingResult) :
    List Trip × ℚ :=
  match resp with
  | .timeout => ([], 0)
  | .netError => ([], 0)
  | .ok status body =>
    if status ≠ 200 then ([], 0)
    else
      match body with
      | none => ([], 0)
      | some recs => processActivities detail recs

/-! ## `get_month_date_range` (lines 97–151)

Only the resolution of the target year and month is modelled; the start/end
timestamps and the label are derived from that pair by fixed calendar
arithmetic. `datetime.now()` is passed in as `currentYear`/`currentMonth`. -/

/-- Resolution of (target_year, target_month) in `get_month_date_range`:
`none` defaults to the month before the current one (rolling the year back in
January); an explicit month outside 1..12 raises `ValueError`; an explicit or
defaulted December is forced to the previous year. -/
def get_month_date_range (currentYear currentMonth : Nat) :
    Option Nat → Except String (Nat × Nat)
  | none =>
    if currentMonth = 1 then .ok (currentYear - 1, 12)
    else .ok (currentYear, currentMonth - 1)
  | some m =>
    if 1 ≤ m ∧ m ≤ 12 then
      if m = 12 then .ok (currentYear - 1, 12) else .ok (currentYear, m)
    else .error "Month must be between 1 and 12"

/-! ## `classify_trip_reason` (lines 633–647) -/

/-- Label written for a trip whose pickup matches a home keyword
(Arabic for "return from work"). -/
def returnFromWorkLabel : String := "العودة من العمل"

/-- Label written for a trip whose pickup matches a work keyword
(Arabic for "going to work"). -/
def goingToWorkLabel : String := "الذهاب إلى العمل"

/-- `classify_trip_reason`: first keyword list whose entry occurs
(case-insensitively) in the pickup location wins; home keywords are checked
before work keywords; no match yields the empty string. -/
def classify_trip_reason (pickup_location : String)
    (home_keywords work_keywords : List String) : String :=
  if home_keywords.any
      (fun k => containsL (lowerL k.toList) (lowerL pickup_location.toList)) then
    returnFromWorkLabel
  else if work_keywords.any
      (fun k => containsL (lowerL k.toList) (lowerL pickup_location.toList)) then
    goingToWorkLabel
  else ""

/-! ## Trip-time parsing (`parse_trip_date`, lines 777–791, and the date-cell
logic of `process_excel_file`, lines 657–673)

`datetime.strptime` with the two formats `"%b %d %I:%M %p"` and
`"%b %d, %Y, %I:%M %p"` is modelled by hand: case-insensitive three-letter
month abbreviation, day/hour/minute with the exact digit-width alternatives
CPython's `_strptime` regex admits, runs of whitespace for blanks in the
format, an anchored `AM`/`PM` tail, and the calendar validation that the
`datetime` constructor performs afterwards (day against month length, the
leap rule, year at least 1; format one validates against 1900, its default
year, and then substitutes the current year).

The script's bullet literal is `"•"` (U+2022): the repository file shows it
(and the Arabic labels) through a cp1252 mojibake introduced by re-encoding,
`"â€¢"` being exactly the UTF-8 bytes of `"•"` read as cp1252. -/

/-- A naive `datetime` value truncated to the fields the script compares. -/
structure DT where
  year : Nat
  month : Nat
  day : Nat
  hour : Nat
  minute : Nat
deriving DecidableEq

/-- `datetime.min` (year 1, January 1, midnight), the sentinel for
unparseable trip times. -/
def DT.bottom : DT := ⟨1, 1, 1, 0, 0⟩

/-- Linearisation of a `DT`; on calendar-valid values it orders exactly as
`datetime` comparison does. -/
def DT.enc (t : DT) : Nat :=
  (((t.year * 13 + t.month) * 32 + t.day) * 24 + t.hour) * 60 + t.minute

/-- Lexicographic (field-by-field) order of `datetime` values. -/
def DT.lexLe (a b : DT) : Prop :=
  a.year < b.year ∨ (a.year = b.year ∧
    (a.month < b.month ∨ (a.month = b.month ∧
      (a.day < b.day ∨ (a.day = b.day ∧
        (a.hour < b.hour ∨ (a.hour = b.hour ∧ a.minute ≤ b.minute)))))))

/-- Field bounds every parsed or sentinel `DT` satisfies. -/
def DT.Bounded (t : DT) : Prop :=
  1 ≤ t.month ∧ t.month ≤ 12 ∧ 1 ≤ t.day ∧ t.day ≤ 31 ∧ t.hour ≤ 23 ∧ t.minute ≤ 59

theorem DT.enc_le_iff_lexLe (a b : DT) (ha : a.Bounded) (hb : b.Bounded) :
    a.enc ≤ b.enc ↔ a.lexLe b := by
  obtain ⟨ya, ma, da, ha', mia⟩ := a
  obtain ⟨yb, mb, db, hb', mib⟩ := b
  simp only [DT.enc, DT.lexLe, DT.Bounded] at *
  omega

/-- Gregorian leap-year rule, as `datetime` validates it. -/
def isLeapYear (y : Nat) : Bool := y % 4 = 0 ∧ (y % 100 ≠ 0 ∨ y % 400 = 0)

/-- Days in a month of a given year. -/
def daysInMonth (y mo : Nat) : Nat :=
  if mo = 2 then (if isLeapYear y then 29 else 28)
  else if mo = 4 ∨ mo = 6 ∨ mo = 9 ∨ mo = 11 then 30 else 31

/-- `if p then some x else none`: a guard in an option-parser chain. -/
def ensure (p : Prop) [Decidable p] (x : α) : Option α :=
  if p then some x else none

/-- First alternative that succeeds, as a regex alternation backtracks. -/
def orO (a b : Option α) : Option α :=
  match a with
  | some x => some x
  | none => b

theorem ensure_eq_some {p : Prop} [Decidable p] {x y : α} :
    ensure p x = some y ↔ p ∧ y = x := by
  unfold ensure
  split
  · simp_all [eq_comm]
  · simp_all

theorem orO_eq_some {a b : Option α} {x : α} :
    orO a b = some x ↔ a = some x ∨ (a = none ∧ b = some x) := by
  cases a <;> simp [orO]

/-- Two digit characters, with their two-digit value. -/
def parse2dig : List Char → Option (Nat × List Char)
  | a :: b :: r =>
    if a.isDigit ∧ b.isDigit then some ((a.toNat - 48) * 10 + (b.toNat - 48), r)
    else none
  | _ => none

/-- One digit character, with its value. -/
def parse1dig : List Char → Option (Nat × List Char)
  | c :: r => if c.isDigit then some (c.toNat - 48, r) else none
  | _ => none

/-- Exactly four digit characters (`%Y`), with their value. -/
def parse4dig : List Char → Option (Nat × List Char)
  | a :: b :: c :: d :: r =>
    if a.isDigit ∧ b.isDigit ∧ c.isDigit ∧ d.isDigit then
      some (((a.toNat - 48) * 10 + (b.toNat - 48)) * 100
        + ((c.toNat - 48) * 10 + (d.toNat - 48)), r)
    else none
  | _ => none

/-- One or more whitespace characters (a blank in a strptime format). -/
def skipWs1 : List Char → Option (List Char)
  | c :: r => if c.isWhitespace then some (r.dropWhile Char.isWhitespace) else none
  | [] => none

/-- A single literal character. -/
def expectChar (x : Char) : List Char → Option (List Char)
  | c :: r => if c = x then some r else none
  | [] => none

/-- The twelve lowercase month abbreviations `%b` accepts, in month order. -/
def monthAbbrevs : List (List Char) :=
  [['j','a','n'], ['f','e','b'], ['m','a','r'], ['a','p','r'], ['m','a','y'],
   ['j','u','n'], ['j','u','l'], ['a','u','g'], ['s','e','p'], ['o','c','t'],
   ['n','o','v'], ['d','e','c']]

/-- The month number of a lowercased three-letter abbreviation. -/
def monthNum (a b c : Char) : Option Nat :=
  (monthAbbrevs.findIdx? (fun m => m == [a, b, c])).map (fun i => i + 1)

/-- `%b`: case-insensitive month abbreviation. -/
def parseMonth : List Char → Option (Nat × List Char)
  | a :: b :: c :: rest =>
    (monthNum a.toLower b.toLower c.toLower).bind fun mo => some (mo, rest)
  | _ => none

/-- `%p` anchored at the end of the input: `AM`/`PM`, case-insensitively;
`true` means PM. -/
def ampmEnd : List Char → Option Bool
  | [a, m] =>
    if a.toLower = 'a' ∧ m.toLower = 'm' then some false
    else if a.toLower = 'p' ∧ m.toLower = 'm' then some true
    else none
  | _ => none

/-- Whitespace then the anchored `%p`. -/
def ampmTail (cs : List Char) : Option Bool :=
  (skipWs1 cs).bind ampmEnd

/-- 12-hour clock to 24-hour, with the `%I`/`%p` convention of `_strptime`. -/
def to24 (h : Nat) (pm : Bool) : Nat :=
  if pm then (if h = 12 then 12 else h + 12) else (if h = 12 then 0 else h)

/-- `%M` then blank then `%p` to the end: `[0-5]\d|\d`. -/
def minuteAmPm (cs : List Char) : Option (Nat × Bool) :=
  orO ((parse2dig cs).bind fun x => (ensure (x.1 ≤ 59) x).bind fun y =>
        (ampmTail y.2).bind fun pm => some (y.1, pm))
      ((parse1dig cs).bind fun x =>
        (ampmTail x.2).bind fun pm => some (x.1, pm))

/-- `%I:%M %p` to the end, yielding (hour24, minute): `1[0-2]|0[1-9]|[1-9]`
for the hour. -/
def timeAmPm (cs : List Char) : Option (Nat × Nat) :=
  orO ((parse2dig cs).bind fun x => (ensure (1 ≤ x.1 ∧ x.1 ≤ 12) x).bind fun y =>
        (expectChar ':' y.2).bind fun r2 =>
        (minuteAmPm r2).bind fun m => some (to24 y.1 m.2, m.1))
      ((parse1dig cs).bind fun x => (ensure (1 ≤ x.1) x).bind fun y =>
        (expectChar ':' y.2).bind fun r2 =>
        (minuteAmPm r2).bind fun m => some (to24 y.1 m.2, m.1))

/-- `%d` (`3[01]|[12]\d|0[1-9]|[1-9]`) followed by the rest of format one:
blank then `%I:%M %p`. Yields (day, hour24, minute). -/
def fmt1Day (cs : List Char) : Option (Nat × Nat × Nat) :=
  orO ((parse2dig cs).bind fun x => (ensure (1 ≤ x.1 ∧ x.1 ≤ 31) x).bind fun y =>
        (skipWs1 y.2).bind fun r2 =>
        (timeAmPm r2).bind fun hm => some (y.1, hm.1, hm.2))
      ((parse1dig cs).bind fun x => (ensure (1 ≤ x.1) x).bind fun y =>
        (skipWs1 y.2).bind fun r2 =>
        (timeAmPm r2).bind fun hm => some (y.1, hm.1, hm.2))

/-- `strptime` with `"%b %d %I:%M %p"` (format one), including the day check
the `datetime` constructor performs against the default year 1900.
Yields (month, day, hour24, minute). -/
def parseFmt1 (cs : List Char) : Option (Nat × Nat × Nat × Nat) :=
  (parseMonth cs).bind fun mr =>
  (skipWs1 mr.2).bind fun r1 =>
  (fmt1Day r1).bind fun dhm =>
  (ensure (dhm.1 ≤ daysInMonth 1900 mr.1) dhm).bind fun z =>
  some (mr.1, z.1, z.2.1, z.2.2)

/-- `", %Y, %I:%M %p"`, the tail of format two after the day.
Yields (day, year, hour24, minute). -/
def fmt2AfterDay (d : Nat) (r : List Char) : Option (Nat × Nat × Nat × Nat) :=
  (expectChar ',' r).bind fun r2 =>
  (skipWs1 r2).bind fun r3 =>
  (parse4dig r3).bind fun yr =>
  (expectChar ',' yr.2).bind fun r4 =>
  (skipWs1 r4).bind fun r5 =>
  (timeAmPm r5).bind fun hm =>
  some (d, yr.1, hm.1, hm.2)

/-- `%d` followed by the rest of format two. -/
def fmt2Day (cs : List Char) : Option (Nat × Nat × Nat × Nat) :=
  orO ((parse2dig cs).bind fun x => (ensure (1 ≤ x.1 ∧ x.1 ≤ 31) x).bind fun y =>
        fmt2AfterDay y.1 y.2)
      ((parse1dig cs).bind fun x => (ensure (1 ≤ x.1) x).bind fun y =>
        fmt2AfterDay y.1 y.2)

/-- `strptime` with `"%b %d, %Y, %I:%M %p"` (format two), including the
calendar validation of the `datetime` constructor (year at least 1, day
against the month of the parsed year). -/
def parseFmt2 (cs : List Char) : Option DT :=
  (parseMonth cs).bind fun mr =>
  (skipWs1 mr.2).bind fun r1 =>
  (fmt2Day r1).bind fun dy =>
  (ensure (1 ≤ dy.2.1 ∧ dy.1 ≤ daysInMonth dy.2.1 mr.1) dy).bind fun z =>
  some ⟨z.2.1, mr.1, z.1, z.2.2.1, z.2.2.2⟩

/-- `s.replace("•", "").strip()`: drop every bullet, then strip surrounding
whitespace. -/
def cleanTime (s : String) : List Char :=
  ((((s.toList.filter (fun c => c ≠ '•')).dropWhile
      Char.isWhitespace).reverse.dropWhile Char.isWhitespace).reverse)

/-- `parse_trip_date` (lines 777–791): format one on the cleaned string with
the current year substituted, else format two on the raw string, else the
sentinel `datetime.min`. -/
def parse_trip_date (currentYear : Nat) (s : String) : DT :=
  match parseFmt1 (cleanTime s) with
  | some (mo, d, h, mi) => ⟨currentYear, mo, d, h, mi⟩
  | none =>
    match parseFmt2 s.toList with
    | some dt => dt
    | none => DT.bottom

/-- The date-cell computation of `process_excel_file` (lines 657–673): like
`parse_trip_date` but format two also runs on the cleaned string, and failure
keeps the raw time string for the cell. -/
def process_excel_date_cell (currentYear : Nat) (s : String) : DT ⊕ String :=
  match parseFmt1 (cleanTime s) with
  | some (mo, d, h, mi) => Sum.inl ⟨currentYear, mo, d, h, mi⟩
  | none =>
    match parseFmt2 (cleanTime s) with
    | some dt => Sum.inl dt
    | none => Sum.inr s

/-! ## Receipt merging (`merge_receipts`, lines 745–774)

`sorted(trips, key=lambda t: parse_trip_date(t.get("time","")), reverse=True)`
is a stable descending sort by the parsed time; a stable sort is unique, so
Mathlib's stable `List.insertionSort` with the "key at least as large"
relation computes exactly the ordering CPython's sort produces. The merge
then appends, in that order, the receipts whose PDF exists on disk. -/

/-- "`a`'s parsed trip time is at least `b`'s": the descending comparison the
merge sorts by. -/
def tripTimeGe (cy : Nat) (a b : Trip) : Prop :=
  (parse_trip_date cy b.time).enc ≤ (parse_trip_date cy a.time).enc

instance (cy : Nat) : DecidableRel (tripTimeGe cy) := fun _ _ => Nat.decLe _ _

instance (cy : Nat) : IsTotal Trip (tripTimeGe cy) :=
  ⟨fun _ _ => Nat.le_total _ _⟩

instance (cy : Nat) : IsTrans Trip (tripTimeGe cy) :=
  ⟨fun _ _ _ h1 h2 => Nat.le_trans h2 h1⟩

/-- The sorted trip sequence of `merge_receipts` (lines 752–756). -/
def sortTripsDesc (cy : Nat) (trips : List Trip) : List Trip :=
  List.insertionSort (tripTimeGe cy) trips

/-- `merge_receipts` modulo I/O: the sequence of trip ids whose receipts are
appended, in order — sorted descending by parsed time, keeping only those
whose PDF file exists. -/
def merge_receipts (cy : Nat) (pdfOnDisk : String → Bool) (trips : List Trip) :
    List String :=
  ((sortTripsDesc cy trips).filter (fun t => pdfOnDisk t.uuid)).map
    (fun t => t.uuid)

/-! ## Bounds on the fields of parsed trip times -/

theorem digit_toNat_bounds (c : Char) (h : c.isDigit = true) :
    48 ≤ c.toNat ∧ c.toNat ≤ 57 := by
  simpa [Char.isDigit, Char.le_def] using h

theorem parse2dig_bounds {cs : List Char} {v : Nat} {r : List Char}
    (h : parse2dig cs = some (v, r)) : v ≤ 99 := by
  match cs with
  | [] => simp [parse2dig] at h
  | [a] => simp [parse2dig] at h
  | a :: b :: t =>
    simp only [parse2dig] at h
    split at h
    · next hd =>
      obtain ⟨h1, -⟩ := Prod.mk.injEq .. ▸ Option.some.injEq .. ▸ h
      have := digit_toNat_bounds a hd.1
      have := digit_toNat_bounds b hd.2
      omega
    · exact absurd h (by simp)

theorem parse1dig_bounds {cs : List Char} {v : Nat} {r : List Char}
    (h : parse1dig cs = some (v, r)) : v ≤ 9 := by
  match cs with
  | [] => simp [parse1dig] at h
  | c :: t =>
    simp only [parse1dig] at h
    split at h
    · next hd =>
      obtain ⟨h1, -⟩ := Prod.mk.injEq .. ▸ Option.some.injEq .. ▸ h
      have := digit_toNat_bounds c hd
      omega
    · exact absurd h (by simp)

theorem monthNum_bounds {a b c : Char} {mo : Nat} (h : monthNum a b c = some mo) :
    1 ≤ mo ∧ mo ≤ 12 := by
  unfold monthNum at h
  rcases Option.map_eq_some'.mp h with ⟨i, hi, rfl⟩
  rcases List.findIdx?_eq_some_iff_getElem.mp hi with ⟨hlen, -⟩
  simp [monthAbbrevs] at hlen
  omega

theorem parseMonth_bounds {cs : List Char} {mo : Nat} {r : List Char}
    (h : parseMonth cs = some (mo, r)) : 1 ≤ mo ∧ mo ≤ 12 := by
  match cs with
  | [] => simp [parseMonth] at h
  | [a] => simp [parseMonth] at h
  | [a, b] => simp [parseMonth] at h
  | a :: b :: c :: t =>
    simp only [parseMonth, Option.bind_eq_some] at h
    rcases h with ⟨v, hv, hs⟩
    cases hs
    exact monthNum_bounds hv

theorem to24_le (h : Nat) (pm : Bool) (hh : h ≤ 12) : to24 h pm ≤ 23 := by
  unfold to24
  split <;> split <;> omega

theorem minuteAmPm_bounds {cs : List Char} {mi : Nat} {pm : Bool}
    (h : minuteAmPm cs = some (mi, pm)) : mi ≤ 59 := by
  unfold minuteAmPm at h
  rcases orO_eq_some.mp h with h1 | ⟨-, h1⟩ <;>
    simp only [Option.bind_eq_some, ensure_eq_some] at h1
  · rcases h1 with ⟨x, hx, y, ⟨hy, rfl⟩, p, hp, he⟩
    cases he
    omega
  · rcases h1 with ⟨x, hx, p, hp, he⟩
    cases he
    exact Nat.le_trans (parse1dig_bounds hx) (by omega)

theorem timeAmPm_bounds {cs : List Char} {h24 mi : Nat}
    (h : timeAmPm cs = some (h24, mi)) : h24 ≤ 23 ∧ mi ≤ 59 := by
  unfold timeAmPm at h
  rcases orO_eq_some.mp h with h1 | ⟨-, h1⟩ <;>
    simp only [Option.bind_eq_some, ensure_eq_some] at h1
  · rcases h1 with ⟨x, hx, y, ⟨hy, rfl⟩, r2, hr2, m, hm, he⟩
    cases he
    exact ⟨to24_le _ _ hy.2, minuteAmPm_bounds hm⟩
  · rcases h1 with ⟨x, hx, y, ⟨hy, rfl⟩, r2, hr2, m, hm, he⟩
    cases he
    exact ⟨to24_le _ _ (Nat.le_trans (parse1dig_bounds hx) (by omega)),
      minuteAmPm_bounds hm⟩

theorem fmt1Day_bounds {cs : List Char} {d h24 mi : Nat}
    (h : fmt1Day cs = some (d, h24, mi)) :
    1 ≤ d ∧ d ≤ 31 ∧ h24 ≤ 23 ∧ mi ≤ 59 := by
  unfold fmt1Day at h
  rcases orO_eq_some.mp h with h1 | ⟨-, h1⟩ <;>
    simp only [Option.bind_eq_some, ensure_eq_some] at h1
  · rcases h1 with ⟨x, hx, y, ⟨hy, rfl⟩, r2, hr2, hm, hhm, he⟩
    cases he
    have := @timeAmPm_bounds r2 hm.1 hm.2 (by simpa using hhm)
    exact ⟨hy.1, hy.2, this.1, this.2⟩
  · rcases h1 with ⟨x, hx, y, ⟨hy, rfl⟩, r2, hr2, hm, hhm, he⟩
    cases he
    have := @timeAmPm_bounds r2 hm.1 hm.2 (by simpa using hhm)
    exact ⟨hy, Nat.le_trans (parse1dig_bounds hx) (by omega), this.1, this.2⟩

theorem parseFmt1_bounds {cs : List Char} {mo d h24 mi : Nat}
    (h : parseFmt1 cs = some (mo, d, h24, mi)) :
    1 ≤ mo ∧ mo ≤ 12 ∧ 1 ≤ d ∧ d ≤ 31 ∧ h24 ≤ 23 ∧ mi ≤ 59 := by
  unfold parseFmt1 at h
  simp only [Option.bind_eq_some, ensure_eq_some] at h
  rcases h with ⟨mr, hmr, r1, hr1, dhm, hdhm, z, ⟨hz, he2⟩, he⟩
  subst he2
  cases he
  have h1 := @parseMonth_bounds cs mr.1 mr.2 (by simpa using hmr)
  have h2 := @fmt1Day_bounds r1 z.1 z.2.1 z.2.2 (by simpa using hdhm)
  exact ⟨h1.1, h1.2, h2.1, h2.2.1, h2.2.2.1, h2.2.2.2⟩

theorem fmt2AfterDay_bounds {d : Nat} {r : List Char} {d' y h24 mi : Nat}
    (h : fmt2AfterDay d r = some (d', y, h24, mi)) :
    d' = d ∧ h24 ≤ 23 ∧ mi ≤ 59 := by
  unfold fmt2AfterDay at h
  simp only [Option.bind_eq_some] at h
  rcases h with ⟨r2, hr2, r3, hr3, yr, hyr, r4, hr4, r5, hr5, hm, hhm, he⟩
  cases he
  have := @timeAmPm_bounds r5 hm.1 hm.2 (by simpa using hhm)
  exact ⟨rfl, this.1, this.2⟩

theorem fmt2Day_bounds {cs : List Char} {d y h24 mi : Nat}
    (h : fmt2Day cs = some (d, y, h24, mi)) :
    1 ≤ d ∧ d ≤ 31 ∧ h24 ≤ 23 ∧ mi ≤ 59 := by
  unfold fmt2Day at h
  rcases orO_eq_some.mp h with h1 | ⟨-, h1⟩ <;>
    simp only [Option.bind_eq_some, ensure_eq_some] at h1
  · rcases h1 with ⟨x, hx, z, ⟨hz, rfl⟩, hafter⟩
    have := fmt2AfterDay_bounds hafter
    exact ⟨this.1 ▸ hz.1, this.1 ▸ hz.2, this.2.1, this.2.2⟩
  · rcases h1 with ⟨x, hx, z, ⟨hz, rfl⟩, hafter⟩
    have := fmt2AfterDay_bounds hafter
    refine ⟨this.1 ▸ hz, this.1 ▸ Nat.le_trans (parse1dig_bounds hx) (by omega),
      this.2.1, this.2.2⟩

theorem parseFmt2_bounds {cs : List Char} {dt : DT}
    (h : parseFmt2 cs = some dt) : dt.Bounded ∧ 1 ≤ dt.year := by
  unfold parseFmt2 at h
  simp only [Option.bind_eq_some, ensure_eq_some] at h
  rcases h with ⟨mr, hmr, r1, hr1, dy, hdy, z, ⟨hz, he2⟩, he⟩
  subst he2
  cases he
  have h1 := @parseMonth_bounds cs mr.1 mr.2 (by simpa using hmr)
  have h2 := @fmt2Day_bounds r1 z.1 z.2.1 z.2.2.1 z.2.2.2 (by simpa using hdy)
  exact ⟨⟨h1.1, h1.2, h2.1, h2.2.1, h2.2.2.1, h2.2.2.2⟩, hz.1⟩

theorem DT_bottom_Bounded : DT.bottom.Bounded := by
  simp [DT.bottom, DT.Bounded]

theorem parse_trip_date_Bounded (cy : Nat) (s : String) :
    (parse_trip_date cy s).Bounded := by
  unfold parse_trip_date
  split
  · next mo d h24 mi heq =>
    have := parseFmt1_bounds heq
    simp only [DT.Bounded]
    exact ⟨this.1, this.2.1, this.2.2.1, this.2.2.2.1, this.2.2.2.2.1,
      this.2.2.2.2.2⟩
  · split
    · next dt heq => exact (parseFmt2_bounds heq).1
    · exact DT_bottom_Bounded

theorem parse_trip_date_year (cy : Nat) (hcy : 1 ≤ cy) (s : String) :
    1 ≤ (parse_trip_date cy s).year := by
  unfold parse_trip_date
  split
  · exact hcy
  · split
    · next dt heq => exact (parseFmt2_bounds heq).2
    · exact Nat.le_refl 1

/-- The sentinel `datetime.min` is at most every parsed trip time (so, in the
descending merge order, unparseable trips sort after parseable ones). -/
theorem bottom_lexLe (t : DT) (hy : 1 ≤ t.year) (hb : t.Bounded) :
    DT.bottom.lexLe t := by
  obtain ⟨y, mo, d, h, mi⟩ := t
  simp only [DT.Bounded] at hb
  dsimp only at hy
  simp only [DT.bottom, DT.lexLe]
  omega

/-! ## Shared facts about the processing loop -/

theorem isSkipped_iff (desc : String) :
    isSkipped desc
      = (containsLower desc "canceled" || containsLower desc "unfulfilled") := by
  unfold isSkipped recordStatus
  by_cases h : containsLower desc "canceled" = true
  · simp [h]
  · simp [h]

theorem processActivities_eq (detail : String → DetailResult)
    (recs : List ActivityRecord) :
    processActivities detail recs
      = ((recs.filter (fun r => !isSkipped r.description)).map (mkTrip detail),
         (recs.map (fun r => parsePriceQ r.description)).sum) := by
  induction recs with
  | nil => simp [processActivities]
  | cons r rs ih =>
    simp only [processActivities, ih, List.filter_cons, List.map_cons,
      List.sum_cons]
    by_cases h : isSkipped r.description
    · simp [h]
    · simp [h]

/-! ## The claims -/

/-- C1: in a successful listing response, every record whose description
contains "canceled" or "unfulfilled" (case-insensitively) is excluded from
the returned trips — the trips are exactly the non-skipped records, in order
— yet `overall_amount` is the sum of the parsed prices of ALL records,
retained and excluded alike. -/
theorem c1_amount_counts_excluded (detail : String → DetailResult)
    (recs : List ActivityRecord) :
    (∀ desc, isSkipped desc
        = (containsLower desc "canceled" || containsLower desc "unfulfilled"))
    ∧ (get_uber_trips detail (.ok 200 (some recs))).1
        = (recs.filter (fun r => !isSkipped r.description)).map (mkTrip detail)
    ∧ (get_uber_trips detail (.ok 200 (some recs))).2
        = (recs.map (fun r => parsePriceQ r.description)).sum := by
  refine ⟨isSkipped_iff, ?_, ?_⟩
  · show (processActivities detail recs).1 = _
    rw [processActivities_eq]
  · show (processActivities detail recs).2 = _
    rw [processActivities_eq]

/-- C10: every trip in the sequence returned by `get_uber_trips` has status
"Completed": a record classified "Canceled" is always skipped before being
appended. -/
theorem c10_all_retained_completed (detail : String → DetailResult)
    (resp : ListingResult) (t : Trip)
    (h : t ∈ (get_uber_trips detail resp).1) : t.status = "Completed" := by
  match resp with
  | .timeout => simp [get_uber_trips] at h
  | .netError => simp [get_uber_trips] at h
  | .ok status body =>
    unfold get_uber_trips at h
    by_cases hs : status = 200
    · simp only [hs, ne_eq, not_true_eq_false, if_false] at h
      match body with
      | none => simp at h
      | some recs =>
        simp only [processActivities_eq, List.mem_map, List.mem_filter] at h
        rcases h with ⟨r, ⟨-, hr⟩, rfl⟩
        show recordStatus r.description = "Completed"
        unfold recordStatus
        unfold isSkipped recordStatus at hr
        by_cases hc : containsLower r.description "canceled" = true
        · simp [hc] at hr
        · simp [hc]
    · simp [hs] at h

/-- C10 witness: a concrete retained trip has status "Completed". -/
theorem c10_all_retained_completed_witness :
    (mkTrip (fun _ => DetailResult.fail)
      ⟨"u1", "url", "EGP 7.00", "Aug 31"⟩).status = "Completed" :=
  c10_all_retained_completed (fun _ => DetailResult.fail)
    (.ok 200 (some [⟨"u1", "url", "EGP 7.00", "Aug 31"⟩])) _
    (by rw [show (get_uber_trips (fun _ => DetailResult.fail)
          (.ok 200 (some [⟨"u1", "url", "EGP 7.00", "Aug 31"⟩]))).1
          = [mkTrip (fun _ => DetailResult.fail)
              ⟨"u1", "url", "EGP 7.00", "Aug 31"⟩] from rfl]
        exact List.mem_singleton.mpr rfl)

/-- C2: whenever `get_month_date_range` resolves successfully (with a sane
current month), a resolved month of December carries the current year minus
one — whether December was requested explicitly or reached by defaulting
from January — and any other resolved month carries the current year. -/
theorem c2_december_prior_year (currentYear currentMonth : Nat)
    (hcm : 1 ≤ currentMonth ∧ currentMonth ≤ 12) (m : Option Nat)
    (res : Nat × Nat)
    (h : get_month_date_range currentYear currentMonth m = .ok res) :
    (res.2 = 12 → res.1 = currentYear - 1)
    ∧ (res.2 ≠ 12 → res.1 = currentYear) := by
  match m with
  | none =>
    unfold get_month_date_range at h
    dsimp only at h
    by_cases hc : currentMonth = 1
    · rw [if_pos hc] at h
      cases h
      exact ⟨fun _ => rfl, fun hx => absurd rfl hx⟩
    · rw [if_neg hc] at h
      cases h
      refine ⟨fun h12 => ?_, fun _ => rfl⟩
      have h12' : currentMonth - 1 = 12 := h12
      exact absurd h12' (by omega)
  | some mv =>
    unfold get_month_date_range at h
    dsimp only at h
    by_cases hv : 1 ≤ mv ∧ mv ≤ 12
    · rw [if_pos hv] at h
      by_cases h12 : mv = 12
      · rw [if_pos h12] at h
        cases h
        exact ⟨fun _ => rfl, fun hx => absurd rfl hx⟩
      · rw [if_neg h12] at h
        cases h
        exact ⟨fun hx => absurd hx h12, fun _ => rfl⟩
    · rw [if_neg hv] at h
      cases h

/-- C2 witness: an explicit December in October 2026 resolves to 2025. -/
theorem c2_december_prior_year_witness :
    ((2025, 12).2 = 12 → (2025, 12).1 = 2026 - 1)
    ∧ ((2025, 12).2 ≠ 12 → (2025, 12).1 = 2026) :=
  c2_december_prior_year 2026 10 (by omega) (some 12) (2025, 12) rfl

/-- C3: when the listing request fails — timeout, network error, a non-200
status, or a usable-data-free body — `get_uber_trips` returns the empty trip
sequence and a total of exactly 0, never partial data. -/
theorem c3_listing_failure_yields_empty (detail : String → DetailResult)
    (resp : ListingResult)
    (h : resp = .timeout ∨ resp = .netError
      ∨ (∃ s b, resp = .ok s b ∧ s ≠ 200) ∨ (∃ s, resp = .ok s none)) :
    get_uber_trips detail resp = ([], 0) := by
  rcases h with rfl | rfl | ⟨s, b, rfl, hs⟩ | ⟨s, rfl⟩
  · rfl
  · rfl
  · simp [get_uber_trips, hs]
  · unfold get_uber_trips
    by_cases hs : s = 200 <;> simp [hs]

/-- C3 witness: a timeout yields no trips and a zero total. -/
theorem c3_listing_failure_yields_empty_witness :
    get_uber_trips (fun _ => DetailResult.fail) ListingResult.timeout = ([], 0) :=
  c3_listing_failure_yields_empty (fun _ => DetailResult.fail)
    ListingResult.timeout (Or.inl rfl)

/-- C5: `classify_trip_reason` returns the return-from-work label whenever
any home keyword occurs (case-insensitively) in the pickup location — even
when a work keyword also occurs, because home keywords are checked first —
else the going-to-work label when any work keyword occurs, else the empty
string. -/
theorem c5_home_keywords_first (pickup : String) (home work : List String) :
    ((∃ k ∈ home, ∃ p t, p ++ lowerL k.toList ++ t = lowerL pickup.toList) →
        classify_trip_reason pickup home work = returnFromWorkLabel)
    ∧ ((¬ ∃ k ∈ home, ∃ p t, p ++ lowerL k.toList ++ t = lowerL pickup.toList) →
        (∃ k ∈ work, ∃ p t, p ++ lowerL k.toList ++ t = lowerL pickup.toList) →
        classify_trip_reason pickup home work = goingToWorkLabel)
    ∧ ((¬ ∃ k ∈ home, ∃ p t, p ++ lowerL k.toList ++ t = lowerL pickup.toList) →
        (¬ ∃ k ∈ work, ∃ p t, p ++ lowerL k.toList ++ t = lowerL pickup.toList) →
        classify_trip_reason pickup home work = "")
    ∧ classify_trip_reason "223 St, New Cairo 1" ["New Cairo"] ["St,"]
        = returnFromWorkLabel := by
  have key : ∀ ks : List String,
      (ks.any (fun k => containsL (lowerL k.toList) (lowerL pickup.toList))
          = true)
        ↔ ∃ k ∈ ks, ∃ p t, p ++ lowerL k.toList ++ t = lowerL pickup.toList := by
    intro ks
    rw [List.any_eq_true]
    constructor
    · rintro ⟨k, hk, hc⟩
      exact ⟨k, hk, (containsL_iff _ _).mp hc⟩
    · rintro ⟨k, hk, hc⟩
      exact ⟨k, hk, (containsL_iff _ _).mpr hc⟩
  refine ⟨?_, ?_, ?_, by decide⟩
  · intro hh
    unfold classify_trip_reason
    rw [if_pos ((key home).mpr hh)]
  · intro hh hw
    unfold classify_trip_reason
    rw [if_neg (fun hx => hh ((key home).mp hx)), if_pos ((key work).mpr hw)]
  · intro hh hw
    unfold classify_trip_reason
    rw [if_neg (fun hx => hh ((key home).mp hx)),
      if_neg (fun hx => hw ((key work).mp hx))]

/-- C7: when the detail fetch succeeds with at least two waypoints whose
first and last entries are strings, the trip's pickup is the first waypoint
and its dropoff the last; with fewer than two waypoints both location fields
stay empty and the trip is still produced. -/
theorem c7_waypoint_fields (detail : String → DetailResult)
    (r : ActivityRecord) (ws : List Waypoint)
    (h : detail r.uuid = DetailResult.ok ws) :
    (∀ s s', 2 ≤ ws.length → ws.head? = some (.str s) →
        ws.getLast? = some (.str s') →
        (mkTrip detail r).pickup_location = s
          ∧ (mkTrip detail r).dropoff_location = s')
    ∧ (ws.length < 2 →
        (mkTrip detail r).pickup_location = ""
          ∧ (mkTrip detail r).dropoff_location = "") := by
  have hp : (mkTrip detail r).pickup_location
      = (waypointAddresses (detail r.uuid)).1 := rfl
  have hd : (mkTrip detail r).dropoff_location
      = (waypointAddresses (detail r.uuid)).2 := rfl
  rw [h] at hp hd
  match ws with
  | [] =>
    refine ⟨fun s s' hlen _ _ => by simp at hlen, fun _ => ?_⟩
    exact ⟨hp, hd⟩
  | [w] =>
    refine ⟨fun s s' hlen _ _ => by simp at hlen, fun _ => ?_⟩
    exact ⟨hp, hd⟩
  | w0 :: w1 :: rest =>
    refine ⟨fun s s' _ hhead hlast => ?_, fun hlen => by simp at hlen; omega⟩
    have hw0 : w0 = .str s := by simpa using hhead
    have hlast2 : (w1 :: rest).getLast? = some (.str s') := by
      rw [← List.getLast?_cons_cons (a := w0)]
      exact hlast
    have hlast3 : (w1 :: rest).getLast (List.cons_ne_nil w1 rest) = .str s' := by
      have := List.getLast?_eq_getLast (w1 :: rest) (List.cons_ne_nil w1 rest)
      rw [this] at hlast2
      exact Option.some.inj hlast2
    subst hw0
    constructor
    · rw [hp]
      simp [waypointAddresses]
    · rw [hd]
      simp [waypointAddresses, hlast3]

/-- C7 witness: a two-waypoint detail response fills both location fields. -/
theorem c7_waypoint_fields_witness :
    (∀ s s', 2 ≤ ([Waypoint.str "A", Waypoint.str "B"] : List Waypoint).length →
        ([Waypoint.str "A", Waypoint.str "B"] : List Waypoint).head?
          = some (.str s) →
        ([Waypoint.str "A", Waypoint.str "B"] : List Waypoint).getLast?
          = some (.str s') →
        (mkTrip (fun _ => DetailResult.ok [.str "A", .str "B"])
            ⟨"u", "c", "d", "t"⟩).pickup_location = s
          ∧ (mkTrip (fun _ => DetailResult.ok [.str "A", .str "B"])
              ⟨"u", "c", "d", "t"⟩).dropoff_location = s')
    ∧ (([Waypoint.str "A", Waypoint.str "B"] : List Waypoint).length < 2 →
        (mkTrip (fun _ => DetailResult.ok [.str "A", .str "B"])
            ⟨"u", "c", "d", "t"⟩).pickup_location = ""
          ∧ (mkTrip (fun _ => DetailResult.ok [.str "A", .str "B"])
              ⟨"u", "c", "d", "t"⟩).dropoff_location = "") :=
  c7_waypoint_fields (fun _ => DetailResult.ok [.str "A", .str "B"])
    ⟨"u", "c", "d", "t"⟩ [.str "A", .str "B"] rfl

/-- C9: with at least two waypoints, a non-string first entry yields the
literal "Unknown pickup" and a non-string last entry the literal
"Unknown dropoff" — not empty fields. -/
theorem c9_nonstring_waypoint_placeholder (detail : String → DetailResult)
    (r : ActivityRecord) (ws : List Waypoint)
    (h : detail r.uuid = DetailResult.ok ws) (hlen : 2 ≤ ws.length) :
    (ws.head? = some .nonstr →
        (mkTrip detail r).pickup_location = "Unknown pickup")
    ∧ (ws.getLast? = some .nonstr →
        (mkTrip detail r).dropoff_location = "Unknown dropoff") := by
  have hp : (mkTrip detail r).pickup_location
      = (waypointAddresses (detail r.uuid)).1 := rfl
  have hd : (mkTrip detail r).dropoff_location
      = (waypointAddresses (detail r.uuid)).2 := rfl
  rw [h] at hp hd
  match ws with
  | [] => simp at hlen
  | [w] => simp at hlen
  | w0 :: w1 :: rest =>
    constructor
    · intro hhead
      have hw0 : w0 = .nonstr := by simpa using hhead
      subst hw0
      rw [hp]
      simp [waypointAddresses]
    · intro hlast
      have hlast2 : (w1 :: rest).getLast? = some .nonstr := by
        rw [← List.getLast?_cons_cons (a := w0)]
        exact hlast
      have hlast3 : (w1 :: rest).getLast (List.cons_ne_nil w1 rest)
          = .nonstr := by
        have := List.getLast?_eq_getLast (w1 :: rest) (List.cons_ne_nil w1 rest)
        rw [this] at hlast2
        exact Option.some.inj hlast2
      rw [hd]
      simp [waypointAddresses, hlast3]

/-- C9 witness: a detail response of two non-string waypoints yields both
placeholder labels. -/
theorem c9_nonstring_waypoint_placeholder_witness :
    (([Waypoint.nonstr, Waypoint.nonstr] : List Waypoint).head?
        = some .nonstr →
      (mkTrip (fun _ => DetailResult.ok [.nonstr, .nonstr])
          ⟨"u", "c", "d", "t"⟩).pickup_location = "Unknown pickup")
    ∧ (([Waypoint.nonstr, Waypoint.nonstr] : List Waypoint).getLast?
        = some .nonstr →
      (mkTrip (fun _ => DetailResult.ok [.nonstr, .nonstr])
          ⟨"u", "c", "d", "t"⟩).dropoff_location = "Unknown dropoff") :=
  c9_nonstring_waypoint_placeholder (fun _ => DetailResult.ok [.nonstr, .nonstr])
    ⟨"u", "c", "d", "t"⟩ [.nonstr, .nonstr] rfl (by decide)

/-- C4: the extracted price is the first maximal numeric substring of the
description — digits, optionally a dot and further digits — read as an exact
decimal; a digit-free description yields 0 without error; in particular a
description whose first numeric substring is "12.50" yields 12.50. -/
theorem c4_price_first_number (desc : String) :
    ((∀ c ∈ desc.toList, c.isDigit = false) → parsePriceQ desc = 0)
    ∧ (∀ pre d ds rest, desc.toList = pre ++ (d :: ds) ++ rest →
        (∀ c ∈ pre, c.isDigit = false) → d.isDigit = true →
        (∀ c ∈ ds, c.isDigit = true) →
        (∀ e r2, rest = e :: r2 → e.isDigit = false) →
        parsePriceQ desc = (digitsVal (d :: ds) : ℚ)
          + (digitsVal (fracDigits rest) : ℚ)
            / (10 : ℚ) ^ (fracDigits rest).length)
    ∧ (∀ pre d ds f fs rest,
        desc.toList = pre ++ (d :: ds) ++ '.' :: (f :: fs) ++ rest →
        (∀ c ∈ pre, c.isDigit = false) → d.isDigit = true →
        (∀ c ∈ ds, c.isDigit = true) → f.isDigit = true →
        (∀ c ∈ fs, c.isDigit = true) →
        (∀ e r2, rest = e :: r2 → e.isDigit = false) →
        parsePriceQ desc = (digitsVal (d :: ds) : ℚ)
          + (digitsVal (f :: fs) : ℚ) / (10 : ℚ) ^ (f :: fs).length)
    ∧ parsePriceQ "Trip fare EGP 12.50 charged" = 25 / 2
    ∧ parsePriceQ "No digits here!" = 0 := by
  refine ⟨?_, ?_, ?_, ?_, by rfl⟩
  · intro hnone
    unfold parsePriceQ
    rw [scanNumber_none desc.toList hnone]
  · intro pre d ds rest hdesc hpre hd hds hrest
    unfold parsePriceQ
    rw [hdesc, show pre ++ (d :: ds) ++ rest = pre ++ ((d :: ds) ++ rest) by simp,
      scanNumber_append_nodigit pre _ hpre, scanNumber_first d ds rest hd hds hrest]
  · intro pre d ds f fs rest hdesc hpre hd hds hf hfs hrest
    have hdot : ∀ e r2, ('.' :: (f :: fs) ++ rest) = e :: r2 → e.isDigit = false := by
      intro e r2 he
      simp only [List.cons_append, List.cons.injEq] at he
      rw [← he.1]
      decide
    unfold parsePriceQ
    rw [hdesc,
      show pre ++ (d :: ds) ++ '.' :: (f :: fs) ++ rest
        = pre ++ ((d :: ds) ++ ('.' :: (f :: fs) ++ rest)) by simp,
      scanNumber_append_nodigit pre _ hpre,
      scanNumber_first d ds ('.' :: (f :: fs) ++ rest) hd hds hdot,
      fracDigits_dot_digits f fs rest hf hfs hrest]
  · have h : scanNumber ("Trip fare EGP 12.50 charged".toList)
        = some (['1', '2'], ['5', '0']) := by rfl
    have e1 : digitsVal ['1', '2'] = 12 := rfl
    have e2 : digitsVal ['5', '0'] = 50 := rfl
    unfold parsePriceQ
    rw [h]
    norm_num [e1, e2]

/-- A concrete trip timed "Aug 30 • 9:00 AM". -/
def tripAug30 : Trip :=
  ⟨"aug30", "u", "Completed", 5, "Aug 30 • 9:00 AM", "", ""⟩

/-- A concrete trip timed "Aug 31 • 4:29 PM". -/
def tripAug31 : Trip :=
  ⟨"aug31", "u", "Completed", 6, "Aug 31 • 4:29 PM", "", ""⟩

/-- C6: `merge_receipts` appends receipts in descending order of the parsed
trip time (the merged subsequence is pairwise descending and a permutation of
the input is sorted), a trip time failing both formats is assigned the
sentinel `datetime.min`, the sentinel is at most every parsed time (so those
trips sort after all parseable ones), and the trip timed "Aug 31 • 4:29 PM"
precedes the one timed "Aug 30 • 9:00 AM". -/
theorem c6_merge_descending (cy : Nat) (hcy : 1 ≤ cy)
    (pdfOnDisk : String → Bool) (trips : List Trip) :
    (sortTripsDesc cy trips).Perm trips
    ∧ List.Pairwise
        (fun a b => (parse_trip_date cy b.time).lexLe (parse_trip_date cy a.time))
        ((sortTripsDesc cy trips).filter (fun t => pdfOnDisk t.uuid))
    ∧ (∀ s, parseFmt1 (cleanTime s) = none → parseFmt2 s.toList = none →
        parse_trip_date cy s = DT.bottom)
    ∧ (∀ s, DT.bottom.lexLe (parse_trip_date cy s))
    ∧ merge_receipts 2025 (fun _ => true) [tripAug30, tripAug31]
        = ["aug31", "aug30"] := by
  refine ⟨List.perm_insertionSort _ _, ?_, ?_, ?_, by decide⟩
  · have hs : List.Sorted (tripTimeGe cy) (sortTripsDesc cy trips) :=
      List.sorted_insertionSort _ _
    have hp := List.Pairwise.sublist
      (@List.filter_sublist Trip (fun t => pdfOnDisk t.uuid)
        (sortTripsDesc cy trips)) hs
    refine hp.imp ?_
    intro a b hab
    exact (DT.enc_le_iff_lexLe _ _ (parse_trip_date_Bounded cy b.time)
      (parse_trip_date_Bounded cy a.time)).mp hab
  · intro s h1 h2
    simp [parse_trip_date, h1, show parseFmt2 s.data = none from h2]
  · intro s
    exact bottom_lexLe _ (parse_trip_date_year cy hcy s)
      (parse_trip_date_Bounded cy s)

/-- C6 witness: the merge ordering facts at year 2025 on the two concrete
trips. -/
theorem c6_merge_descending_witness :
    (sortTripsDesc 2025 [tripAug30, tripAug31]).Perm [tripAug30, tripAug31]
    ∧ List.Pairwise
        (fun a b =>
          (parse_trip_date 2025 b.time).lexLe (parse_trip_date 2025 a.time))
        ((sortTripsDesc 2025 [tripAug30, tripAug31]).filter
          (fun t => (fun _ => true) t.uuid))
    ∧ (∀ s, parseFmt1 (cleanTime s) = none → parseFmt2 s.toList = none →
        parse_trip_date 2025 s = DT.bottom)
    ∧ (∀ s, DT.bottom.lexLe (parse_trip_date 2025 s))
    ∧ merge_receipts 2025 (fun _ => true) [tripAug30, tripAug31]
        = ["aug31", "aug30"] :=
  c6_merge_descending 2025 (by decide) (fun _ => true) [tripAug30, tripAug31]

/-- C8: the spreadsheet date cell first tries format "%b %d %I:%M %p" on the
bullet-stripped string, injecting the current year; then format
"%b %d, %Y, %I:%M %p", taking the year from the string; when both fail the
cell receives the raw time string verbatim. -/
theorem c8_date_cell_two_formats (cy : Nat) (s : String) :
    (∀ mo d h24 mi, parseFmt1 (cleanTime s) = some (mo, d, h24, mi) →
        process_excel_date_cell cy s = Sum.inl ⟨cy, mo, d, h24, mi⟩)
    ∧ (parseFmt1 (cleanTime s) = none →
        ∀ dt, parseFmt2 (cleanTime s) = some dt →
        process_excel_date_cell cy s = Sum.inl dt)
    ∧ (parseFmt1 (cleanTime s) = none → parseFmt2 (cleanTime s) = none →
        process_excel_date_cell cy s = Sum.inr s)
    ∧ process_excel_date_cell cy "Aug 31 • 4:29 PM"
        = Sum.inl ⟨cy, 8, 31, 16, 29⟩
    ∧ process_excel_date_cell cy "Aug 31, 2025, 4:29 PM"
        = Sum.inl ⟨2025, 8, 31, 16, 29⟩
    ∧ process_excel_date_cell cy "later today" = Sum.inr "later today" := by
  refine ⟨?_, ?_, ?_, rfl, rfl, rfl⟩
  · intro mo d h24 mi h1
    simp [process_excel_date_cell, h1]
  · intro h1 dt h2
    simp [process_excel_date_cell, h1, h2]
  · intro h1 h2
    simp [process_excel_date_cell, h1, h2]
